import Mathlib

/-!
Shallow embedding of the tshdl value/shape algebra: `src/src/hdl/ast.ts`
(Shape, Const, Slice, Value.matches, Operator), `src/src/util.ts`
(bitLength, log2_int, bitsFor) and the Range iterator of `src/types.ts`.
JS `BigInt` values are embedded as `Int`; `BigInt` bitwise operators are the
two's-complement operators `Int.land` / `Int.lor` / `Int.lnot` and the shift
instances of `ℤ`, whose semantics coincide with the ECMAScript ones on
arbitrary-precision integers.  Fallible constructors (a `deno` `assert` or a
`throw`) are embedded as `Except String`.
-/

/-- Decidable equality for `Except`, so that concrete runs of the fallible
constructors can be checked by `decide`. -/
instance {ε α : Type} [DecidableEq ε] [DecidableEq α] : DecidableEq (Except ε α) := fun x y =>
  match x, y with
  | Except.ok a, Except.ok b =>
    match decEq a b with
    | isTrue h => isTrue (by rw [h])
    | isFalse h => isFalse (fun hc => h (Except.ok.inj hc))
  | Except.ok _, Except.error _ => isFalse (fun hc => Except.noConfusion hc)
  | Except.error _, Except.ok _ => isFalse (fun hc => Except.noConfusion hc)
  | Except.error e, Except.error f =>
    match decEq e f with
    | isTrue h => isTrue (by rw [h])
    | isFalse h => isFalse (fun hc => h (Except.error.inj hc))

/-- Embeds `class Shape` of src/src/hdl/ast.ts: a bit width together with a
signedness flag.  The width is a JS number; every shape the embedded claims
touch has an integer width, so it is carried as a `Nat` here (`ShapeQ` below
keeps the width as a rational for the constructor-validation claim). -/
structure Shape where
  width : Nat
  signed : Bool
deriving DecidableEq

/-- Embeds the `Shape` constructor: `assert(width >= 1, "Shape must be
non-negative and non-zero."); this.width = width; this.signed = signed`. -/
def Shape.new (width : Nat) (signed : Bool) : Except String Shape :=
  if 1 ≤ width then Except.ok ⟨width, signed⟩
  else Except.error "Shape must be non-negative and non-zero."

/-- Helper for embedding `bitLength`: the number of binary digits of `n`
(with 0 having no digits), written with structural fuel so that concrete
values reduce inside the kernel.  `binDigits fuel n` is the digit count of
`n` whenever `n ≤ fuel`. -/
def binDigits : Nat → Nat → Nat
  | 0, _ => 0
  | fuel + 1, n => if n = 0 then 0 else binDigits fuel (n / 2) + 1

/-- Embeds the JS expression `n.toString(2).length` for a non-negative
BigInt `n`: zero prints as the one-character string "0", and a positive `n`
prints with exactly its number of binary digits. -/
def binStrLen (n : Nat) : Nat :=
  if n = 0 then 1 else binDigits n n

/-- Embeds `bitLength(n, zeroIsZero)` of src/src/util.ts:
`if (n < 0) n = -n; if (n === 0 && zeroIsZero) return 0;
return n.toString(2).length;`. -/
def bitLength (n : Int) (zeroIsZero : Bool) : Nat :=
  let m := n.natAbs
  if m = 0 && zeroIsZero then 0 else binStrLen m

/-- The number `log2_int(n, need_pow2)` of src/src/util.ts returns when it
does not throw: `0` for `n === 0`, else `bitLength(n - 1n)`.  The lemma
`log2_int_false` below connects this to the full fallible `log2_int`. -/
def log2IntVal (n : Int) : Nat :=
  if n = 0 then 0 else bitLength (n - 1) false

/-- Embeds `log2_int(n, need_pow2)` of src/src/util.ts:
`if (n === 0) return 0; const r = bitLength(n - 1n);
if (need_pow2 && (1n << BigInt(r)) !== n) throw ...; return r;`. -/
def log2_int (n : Int) (need_pow2 : Bool) : Except String Nat :=
  if n = 0 then Except.ok 0
  else if need_pow2 && ((1 <<< ((log2IntVal n : Nat) : Int)) != n) then
    Except.error (toString n ++ " is not a power of 2.")
  else Except.ok (log2IntVal n)

/-- Embeds `bitsFor(n, requireSignBit)` of src/src/util.ts.  The source
computes `r = log2_int(n + 1n, false)` for positive `n` and otherwise sets
`requireSignBit = true` and `r = log2_int(-n, false)`; with `need_pow2`
false, `log2_int` never throws and returns `log2IntVal` (lemma
`log2_int_false`), so the calls appear here as `log2IntVal`. -/
def bitsFor (n : Int) (requireSignBit : Bool) : Nat :=
  if 0 < n then
    if requireSignBit then log2IntVal (n + 1) + 1 else log2IntVal (n + 1)
  else
    log2IntVal (-n) + 1

/-- Embeds `class Const` of src/src/hdl/ast.ts: the stored (already
normalized) value together with its shape. -/
structure Const where
  value : Int
  shape : Shape
deriving DecidableEq

/-- Embeds `Const.normalize(value, shape)` of src/src/hdl/ast.ts:
`const mask = (1n << BigInt(width)) - 1n; value &= mask;
if (signed && (value >> BigInt(width - 1))) value |= ~mask; return value;`.
A nonzero BigInt is truthy, hence the `!= 0` in the branch condition. -/
def Const.normalize (value : Int) (shape : Shape) : Int :=
  let mask : Int := (1 <<< (shape.width : Int)) - 1
  let value2 := Int.land value mask
  if shape.signed && (value2 >>> ((shape.width : Int) - 1) != 0) then
    Int.lor value2 (Int.lnot mask)
  else value2

/-- Embeds the `Const` constructor of src/src/hdl/ast.ts:
`this.shape = shape || new Shape(bitsFor(value), value < 0);
this.value = Const.normalize(value, this.shape);`.  A `Shape` object is
always truthy, so `shape ||` is exactly the `Option.getD` below; the width
assert inside `new Shape` cannot fire because `bitsFor` always returns at
least 1 (lemma `one_le_bitsFor`). -/
def Const.new (value : Int) (shape : Option Shape) : Const :=
  let s := match shape with
    | some s => s
    | none => Shape.mk (bitsFor value false) (decide (value < 0))
  Const.mk (Const.normalize value s) s

/-- Embeds `class Range` of src/types.ts (start inclusive, stop exclusive,
positive step): the three JS-number fields, integer-valued in all the
embedded claims. -/
structure Range where
  start : Int
  stop : Int
  step : Int
deriving DecidableEq

/-- Ascending loop of the `Range` iterator:
`for (let current = this.start; current < this.stop; current += this.step)
yield current;`, written with structural fuel so that concrete runs reduce
in the kernel.  When `step ≥ 1`, fuel `(stop - cur).toNat` is enough to
reproduce the whole (finite) iteration; for `step ≤ 0` the source loop does
not terminate and is out of the embedded claims' scope. -/
def rangeAsc : Nat → Int → Int → Int → List Int
  | 0, _, _, _ => []
  | fuel + 1, cur, stop, step =>
    if cur < stop then cur :: rangeAsc fuel (cur + step) stop step else []

/-- Descending loop of the `Range` iterator:
`for (let current = this.start; current > this.stop; current -= this.step)
yield current;`, with fuel exactly as in `rangeAsc`. -/
def rangeDesc : Nat → Int → Int → Int → List Int
  | 0, _, _, _ => []
  | fuel + 1, cur, stop, step =>
    if stop < cur then cur :: rangeDesc fuel (cur - step) stop step else []

/-- Embeds `Range[Symbol.iterator]` of src/types.ts as the list of yielded
values: bail when `start === stop`, count down when `stop < start`,
otherwise count up. -/
def rangeElems (r : Range) : List Int :=
  if r.start = r.stop then []
  else if r.stop < r.start then
    rangeDesc (r.start - r.stop).toNat r.start r.stop r.step
  else
    rangeAsc (r.stop - r.start).toNat r.start r.stop r.step

/-- Embeds the `Range` branch of `Shape.cast` of src/src/hdl/ast.ts:
`const signed = obj.start < 0 || (obj.stop - obj.step) < 0;
const width = Math.max(bitsFor(obj.start, signed),
bitsFor(obj.stop - obj.step, signed)); return new Shape(width, signed);`. -/
def Shape.castRange (r : Range) : Except String Shape :=
  let signed := decide (r.start < 0) || decide (r.stop - r.step < 0)
  let width := max (bitsFor r.start signed) (bitsFor (r.stop - r.step) signed)
  Shape.new width signed

/-- Embeds the dictionary branch of `Shape.cast` of src/src/hdl/ast.ts for a
nonempty dictionary whose values are `v0 :: vs`:
`const min = Math.min(...Object.values(obj));
const max = Math.min(...Object.values(obj));` (the source computes the
second binding with `Math.min` as well) followed by the same
signedness/width derivation as the `Range` branch. -/
def Shape.castDict (v0 : Int) (vs : List Int) : Except String Shape :=
  let mn := vs.foldl min v0
  let mx := vs.foldl min v0
  let signed := decide (mn < 0) || decide (mx < 0)
  let width := max (bitsFor mn signed) (bitsFor mx signed)
  Shape.new width signed

/-- Embeds the `Slice` constructor of src/src/hdl/ast.ts, as a function of
the operand's width `n = Value.cast(value).shape.width` and the two
offsets.  The three `assert`s and the two wraparound rewrites are kept
verbatim, including `stop = + n` (which assigns `n`, not `stop + n`); a
successful construction would return the stored `(start, stop)` pair. -/
def Slice.new (n : Nat) (start stop : Int) : Except String (Int × Int) :=
  if (-((n : Int) + 1)) ≥ start ∧ ((n : Int) + 1) ≤ start then
    if (-((n : Int) + 1)) ≥ stop ∧ ((n : Int) + 1) ≤ stop then
      let start2 := if start < 0 then start + (n : Int) else start
      let stop2 := if stop < 0 then (n : Int) else stop
      if stop2 ≤ start2 then Except.ok (start2, stop2)
      else
        Except.error ("Slice start (" ++ toString start2 ++
          ") must be less than slice stop (" ++ toString stop2 ++ ").")
    else
      Except.error ("Cannot stop a slice " ++ toString stop ++
        " bits into " ++ toString n ++ "-bit value.")
  else
    Except.error ("Cannot start a slice " ++ toString start ++
      " bits into " ++ toString n ++ "-bit value.")

/-- Embeds the regex test `/[^01*]+/.test(testStr)` used by `Value.matches`
of src/src/hdl/ast.ts: true iff the string contains at least one character
outside the alphabet 0, 1, asterisk. -/
def containsInvalidChar (s : String) : Bool :=
  s.data.any (fun c => !(c == '0' || c == '1' || c == '*'))

/-- Embeds the validation loop of `Value.matches` of src/src/hdl/ast.ts:
`patterns.forEach((testStr) => { assert(/[^01*]+/.test(testStr), ...); });`.
Validation passes iff every assert succeeds, i.e. iff every pattern
contains an invalid character - the source's check, faithfully inverted
from the evident intent. -/
def matchesValidationPasses (patterns : List String) : Bool :=
  patterns.all (fun p => containsInvalidChar p)

/-- Variant of `Shape` for the constructor-validation claim, keeping the
width as a rational so that non-integral JS widths such as 1.5 are
representable. -/
structure ShapeQ where
  width : ℚ
  signed : Bool
deriving DecidableEq

/-- Embeds the `Shape` constructor over JS-number widths:
`assert(width >= 1, ...); this.width = width; this.signed = signed`. -/
def ShapeQ.new (width : ℚ) (signed : Bool) : Except String ShapeQ :=
  if 1 ≤ width then Except.ok ⟨width, signed⟩
  else Except.error "Shape must be non-negative and non-zero."

/-- Embeds the static `Shape.signed(width)` of src/src/hdl/ast.ts:
`return new Shape(width, true);`. -/
def ShapeQ.signedNew (width : ℚ) : Except String ShapeQ :=
  ShapeQ.new width true

/-- Embeds the static `Shape.unsigned(width)` of src/src/hdl/ast.ts:
`return new Shape(width, false);`. -/
def ShapeQ.unsignedNew (width : ℚ) : Except String ShapeQ :=
  ShapeQ.new width false

/-- Modelled from the spec: `Operator.shape` in the source is an
unimplemented stub (`get shape(): Shape { throw ""; }`), so the
shape-inference rule for binary add/subtract is taken from the spec's
chosen design: "Binary add/subtract (`+`, `-`): result width =
`max(widthA, widthB) + 1`; signed = `signedA or signedB`." -/
def Operator.addShape (a b : Shape) : Shape :=
  Shape.mk (max a.width b.width + 1) (a.signed || b.signed)

/-! Helper lemmas about the embedded numeric utilities and about the
BigInt bitwise operators on the all-ones mask. -/

/-- The binary-string length of any natural number is at least one
character. -/
theorem one_le_binStrLen (x : ℕ) : 1 ≤ binStrLen x := by
  cases x with
  | zero => decide
  | succ k =>
    show 1 ≤ (if k + 1 = 0 then 1 else binDigits (k + 1) (k + 1))
    rw [if_neg (Nat.succ_ne_zero k)]
    show 1 ≤ (if k + 1 = 0 then 0 else binDigits k ((k + 1) / 2) + 1)
    rw [if_neg (Nat.succ_ne_zero k)]
    omega

/-- Whenever its argument is nonzero, `log2IntVal` is at least 1. -/
theorem one_le_log2IntVal (m : ℤ) (hm : m ≠ 0) : 1 ≤ log2IntVal m := by
  unfold log2IntVal
  rw [if_neg hm]
  unfold bitLength
  simp only [Bool.and_false, if_false]
  exact one_le_binStrLen _

/-- The width computed by `bitsFor` is always at least 1, so the width
assert inside the `Shape` constructor cannot fire on a `bitsFor`-derived
width. -/
theorem one_le_bitsFor (n : ℤ) (b : Bool) : 1 ≤ bitsFor n b := by
  unfold bitsFor
  by_cases h : 0 < n
  · rw [if_pos h]
    cases b with
    | true =>
      rw [if_pos rfl]
      have : (1:ℕ) ≤ log2IntVal (n + 1) := one_le_log2IntVal (n + 1) (by omega)
      omega
    | false =>
      rw [if_neg Bool.false_ne_true]
      exact one_le_log2IntVal (n + 1) (by omega)
  · rw [if_neg h]
    omega

/-- With `need_pow2` unset, `log2_int` never throws and returns
`log2IntVal`; this is why `bitsFor` appears with `log2IntVal` calls. -/
theorem log2_int_false (n : ℤ) : log2_int n false = Except.ok (log2IntVal n) := by
  unfold log2_int log2IntVal
  by_cases h : n = 0
  · rw [if_pos h, if_pos h]
  · rw [if_neg h, if_neg h]
    simp

/-- XOR against the all-ones mask of width `w` is subtraction from that
mask, for arguments below `2 ^ w`. -/
theorem two_pow_sub_one_xor (w : Nat) :
    ∀ x : Nat, x < 2 ^ w → ((2 ^ w - 1) ^^^ x) = (2 ^ w - 1) - x := by
  induction w with
  | zero =>
    intro x hx
    have hx0 : x = 0 := by omega
    subst hx0
    rfl
  | succ w ih =>
    intro x hx
    have hbit : Nat.bit x.bodd x.div2 = x := Nat.bit_decomp x
    have hd2 : x.div2 = x / 2 := Nat.div2_val x
    have hP : (2:ℕ) ^ (w + 1) = 2 * 2 ^ w := by ring
    have hone : 1 ≤ (2:ℕ) ^ w := Nat.one_le_two_pow
    have hxd : x.div2 < 2 ^ w := by omega
    have hmask : (2:ℕ) ^ (w + 1) - 1 = Nat.bit true (2 ^ w - 1) := by
      rw [Nat.bit_val]
      simp [Bool.toNat]
      omega
    rw [hmask, ← hbit, Nat.xor_bit, ih _ hxd]
    have hx2 : 2 * x.div2 + x.bodd.toNat = x := by
      rw [← Nat.bit_val]
      exact hbit
    cases hb : x.bodd <;> simp [hb, Nat.bit_val] at hx2 ⊢ <;> omega

/-- Bitwise difference from the all-ones mask of width `w` is subtraction
of the width-`w` remainder. -/
theorem ldiff_two_pow_sub_one (w m : Nat) :
    Nat.ldiff (2 ^ w - 1) m = (2 ^ w - 1) - m % 2 ^ w := by
  have h1 : Nat.ldiff (2 ^ w - 1) m = (2 ^ w - 1) ^^^ (m % 2 ^ w) := by
    apply Nat.eq_of_testBit_eq
    intro i
    rw [Nat.testBit_ldiff, Nat.testBit_xor, Nat.testBit_mod_two_pow,
      Nat.testBit_two_pow_sub_one]
    cases h : decide (i < w) <;> cases hm : m.testBit i <;> rfl
  rw [h1, two_pow_sub_one_xor w _ (Nat.mod_lt _ (Nat.two_pow_pos w))]

/-- The ECMAScript identity `v & ((1n << w) - 1n) === v mod 2^w` for
arbitrary-precision two's-complement integers, at the embedding's
`Int.land`. -/
theorem int_land_two_pow_sub_one (v : ℤ) (w : ℕ) :
    Int.land v ((2:ℤ) ^ w - 1) = v % (2:ℤ) ^ w := by
  have hone : 1 ≤ (2:ℕ) ^ w := Nat.one_le_two_pow
  have hm : ((2:ℤ) ^ w - 1) = (((2 ^ w - 1 : ℕ) : ℤ)) := by
    push_cast [hone]
    ring
  have hp : ((2:ℤ) ^ w) = (((2 ^ w : ℕ) : ℤ)) := by push_cast; ring
  rw [hm, hp]
  cases v with
  | ofNat n =>
    show (((n &&& (2 ^ w - 1) : ℕ)) : ℤ) = (((n : ℕ) : ℤ)) % (((2 ^ w : ℕ) : ℤ))
    rw [Nat.and_pow_two_sub_one_eq_mod]
    push_cast
    ring
  | negSucc m =>
    show (((Nat.ldiff (2 ^ w - 1) m : ℕ)) : ℤ) = Int.negSucc m % (((2 ^ w : ℕ) : ℤ))
    rw [ldiff_two_pow_sub_one]
    have ht : m % 2 ^ w < 2 ^ w := Nat.mod_lt _ (Nat.two_pow_pos w)
    have hdvd : (((2 ^ w : ℕ) : ℤ)) ∣
        ((((2 ^ w - 1) - m % 2 ^ w : ℕ) : ℤ) - Int.negSucc m) := by
      refine ⟨((m / 2 ^ w : ℕ) : ℤ) + 1, ?_⟩
      have h1 : ((((2 ^ w - 1) - m % 2 ^ w : ℕ) : ℤ)) =
          ((2 ^ w : ℕ) : ℤ) - 1 - ((m % 2 ^ w : ℕ) : ℤ) := by
        push_cast [hone, Nat.le_sub_one_of_lt ht]
        ring
      have h2 : ((m : ℕ) : ℤ) =
          ((2 ^ w : ℕ) : ℤ) * ((m / 2 ^ w : ℕ) : ℤ) + ((m % 2 ^ w : ℕ) : ℤ) := by
        exact_mod_cast (Nat.div_add_mod m (2 ^ w)).symm
      rw [Int.negSucc_eq, h1, sub_neg_eq_add, h2]
      ring
    have hmodeq : Int.negSucc m % (((2 ^ w : ℕ) : ℤ)) =
        ((((2 ^ w - 1) - m % 2 ^ w : ℕ) : ℤ)) % (((2 ^ w : ℕ) : ℤ)) :=
      Int.modEq_iff_dvd.mpr hdvd
    rw [hmodeq, Int.emod_eq_of_lt]
    · exact Int.ofNat_nonneg _
    · exact_mod_cast Nat.lt_of_le_of_lt (Nat.sub_le _ _) (by omega)

/-- The ECMAScript identity `v | ~((1n << w) - 1n) === v - 2^w` for
`0 ≤ v < 2^w`, at the embedding's `Int.lor` and `Int.lnot`. -/
theorem int_lor_lnot_mask (n w : ℕ) (h : n < 2 ^ w) :
    Int.lor ((n : ℕ) : ℤ) (Int.lnot (((2 ^ w - 1 : ℕ) : ℤ))) =
      ((n : ℕ) : ℤ) - (2:ℤ) ^ w := by
  show (Int.negSucc (Nat.ldiff (2 ^ w - 1) n)) = _
  rw [ldiff_two_pow_sub_one, Nat.mod_eq_of_lt h, Int.negSucc_eq]
  have hone : 1 ≤ (2:ℕ) ^ w := Nat.one_le_two_pow
  have h1 : (((2 ^ w - 1) - n : ℕ) : ℤ) = ((2 ^ w : ℕ) : ℤ) - 1 - (n : ℤ) := by
    push_cast [hone, Nat.le_sub_one_of_lt h]
    ring
  rw [h1]
  push_cast
  ring

/-- Arithmetic characterization of `Const.normalize` for any shape of
width at least 1 (the `Shape` invariant): the masked value is the
non-negative remainder mod `2^width`, and the sign-extension step
subtracts `2^width` exactly when the remainder's top bit is set. -/
theorem normalize_eq_arith (v : Int) (w : Nat) (sgn : Bool) (hw : 1 ≤ w) :
    Const.normalize v ⟨w, sgn⟩ =
      if sgn = true ∧ (2:ℤ) ^ (w - 1) ≤ v % 2 ^ w then v % 2 ^ w - 2 ^ w
      else v % 2 ^ w := by
  have hone : 1 ≤ (2:ℕ) ^ w := Nat.one_le_two_pow
  have hmask : ((1 : ℤ) <<< ((w : ℕ) : ℤ)) - 1 = (2:ℤ) ^ w - 1 := by
    rw [Int.one_shiftLeft]
    push_cast
    ring
  have hr0 : 0 ≤ v % (2:ℤ) ^ w := Int.emod_nonneg v (by positivity)
  have hrlt : v % (2:ℤ) ^ w < (2:ℤ) ^ w := Int.emod_lt_of_pos v (by positivity)
  obtain ⟨n, hn⟩ : ∃ n : ℕ, v % (2:ℤ) ^ w = ((n : ℕ) : ℤ) :=
    ⟨(v % (2:ℤ) ^ w).toNat, (Int.toNat_of_nonneg hr0).symm⟩
  have hnlt : n < 2 ^ w := by
    have h2 : ((n : ℕ) : ℤ) < ((2 ^ w : ℕ) : ℤ) := by
      rw [← hn]
      push_cast
      exact hrlt
    exact_mod_cast h2
  show (if sgn && (Int.land v ((1 <<< ((w : ℕ) : ℤ)) - 1) >>> ((w : ℤ) - 1) != 0) then
      Int.lor (Int.land v ((1 <<< ((w : ℕ) : ℤ)) - 1))
        (Int.lnot ((1 <<< ((w : ℕ) : ℤ)) - 1))
    else Int.land v ((1 <<< ((w : ℕ) : ℤ)) - 1)) = _
  rw [hmask, int_land_two_pow_sub_one, hn]
  have hwcast : ((w : ℤ) - 1) = (((w - 1 : ℕ) : ℕ) : ℤ) := by omega
  rw [hwcast, Int.shiftRight_coe_nat, Nat.shiftRight_eq_div_pow]
  have hmask2 : ((2:ℤ) ^ w - 1) = (((2 ^ w - 1 : ℕ) : ℤ)) := by
    push_cast [hone]
    ring
  by_cases hge : 2 ^ (w - 1) ≤ n
  · have hne : n / 2 ^ (w - 1) ≠ 0 := by
      rw [Ne, Nat.div_eq_zero_iff (Nat.two_pow_pos _)]
      omega
    have hb : ((((n / 2 ^ (w - 1) : ℕ) : ℤ)) != 0) = true := by
      rw [bne_iff_ne]
      exact_mod_cast hne
    have hge2 : (2:ℤ) ^ (w - 1) ≤ ((n : ℕ) : ℤ) := by exact_mod_cast hge
    rw [hb]
    cases sgn with
    | false => simp
    | true =>
      rw [Bool.true_and, if_pos rfl, if_pos ⟨rfl, hge2⟩, hmask2,
        int_lor_lnot_mask n w hnlt]
  · have heq : n / 2 ^ (w - 1) = 0 := by
      rw [Nat.div_eq_zero_iff (Nat.two_pow_pos _)]
      omega
    have hb : ((((n / 2 ^ (w - 1) : ℕ) : ℤ)) != 0) = false := by
      rw [bne_eq_false_iff_eq]
      exact_mod_cast heq
    have hge2 : ¬ ((2:ℤ) ^ (w - 1) ≤ ((n : ℕ) : ℤ)) := by
      intro hc
      exact hge (by exact_mod_cast hc)
    rw [hb]
    cases sgn with
    | false => simp
    | true =>
      rw [Bool.true_and, if_neg (by simp), if_neg (fun hc => hge2 hc.2)]


/-! The claim theorems. -/

/-- C1: for every integer v and every shape of width w ≥ 1,
`Const.normalize v` is the canonical two's-complement representative of v
for that shape: it is congruent to v modulo 2^w, it lies in [0, 2^w - 1]
when the shape is unsigned, and it lies in [-2^(w-1), 2^(w-1) - 1] when
the shape is signed. -/
theorem claim_C1_normalize_canonical (v : ℤ) (w : ℕ) (sgn : Bool) (hw : 1 ≤ w) :
    (2:ℤ) ^ w ∣ v - Const.normalize v ⟨w, sgn⟩ ∧
    (sgn = false → 0 ≤ Const.normalize v ⟨w, sgn⟩ ∧
      Const.normalize v ⟨w, sgn⟩ ≤ 2 ^ w - 1) ∧
    (sgn = true → -((2:ℤ) ^ (w - 1)) ≤ Const.normalize v ⟨w, sgn⟩ ∧
      Const.normalize v ⟨w, sgn⟩ ≤ 2 ^ (w - 1) - 1) := by
  rw [normalize_eq_arith v w sgn hw]
  have h2 : (2:ℤ) ^ w = 2 ^ (w - 1) * 2 := by
    rw [← pow_succ]
    congr 1
    omega
  have hr0 : 0 ≤ v % (2:ℤ) ^ w := Int.emod_nonneg v (by positivity)
  have hrlt : v % (2:ℤ) ^ w < (2:ℤ) ^ w := Int.emod_lt_of_pos v (by positivity)
  have hq : (0:ℤ) < 2 ^ (w - 1) := by positivity
  refine ⟨?_, ?_, ?_⟩
  · by_cases h : sgn = true ∧ (2:ℤ) ^ (w - 1) ≤ v % 2 ^ w
    · rw [if_pos h]
      refine ⟨v / 2 ^ w + 1, ?_⟩
      rw [Int.emod_def]
      ring
    · rw [if_neg h]
      refine ⟨v / 2 ^ w, ?_⟩
      rw [Int.emod_def]
      ring
  · intro hs
    rw [if_neg (fun hc => by rw [hs] at hc; exact Bool.false_ne_true hc.1)]
    exact ⟨hr0, by linarith⟩
  · intro hs
    by_cases hge : (2:ℤ) ^ (w - 1) ≤ v % 2 ^ w
    · rw [if_pos ⟨hs, hge⟩]
      constructor <;> linarith
    · rw [if_neg (fun hc => hge hc.2)]
      push_neg at hge
      constructor <;> linarith

/-- Witness for C1 at v = 100 and the signed shape of width 4. -/
theorem claim_C1_witness :
    (1:ℕ) ≤ 4 ∧
    ((2:ℤ) ^ 4 ∣ (100:ℤ) - Const.normalize 100 ⟨4, true⟩ ∧
      (true = false → 0 ≤ Const.normalize (100:ℤ) ⟨4, true⟩ ∧
        Const.normalize (100:ℤ) ⟨4, true⟩ ≤ 2 ^ 4 - 1) ∧
      (true = true → -((2:ℤ) ^ (4 - 1)) ≤ Const.normalize (100:ℤ) ⟨4, true⟩ ∧
        Const.normalize (100:ℤ) ⟨4, true⟩ ≤ 2 ^ (4 - 1) - 1)) :=
  ⟨by decide, claim_C1_normalize_canonical 100 4 true (by decide)⟩

/-- C2: normalization is idempotent for every integer and every shape of
width w ≥ 1 (the `Shape` constructor invariant): normalizing an already
normalized value returns it unchanged. -/
theorem claim_C2_normalize_idempotent (v : ℤ) (w : ℕ) (sgn : Bool) (hw : 1 ≤ w) :
    Const.normalize (Const.normalize v ⟨w, sgn⟩) ⟨w, sgn⟩ =
      Const.normalize v ⟨w, sgn⟩ := by
  have hr0 : 0 ≤ v % (2:ℤ) ^ w := Int.emod_nonneg v (by positivity)
  have hrlt : v % (2:ℤ) ^ w < (2:ℤ) ^ w := Int.emod_lt_of_pos v (by positivity)
  by_cases h : sgn = true ∧ (2:ℤ) ^ (w - 1) ≤ v % 2 ^ w
  · have hinner : Const.normalize v ⟨w, sgn⟩ = v % 2 ^ w - 2 ^ w := by
      rw [normalize_eq_arith v w sgn hw, if_pos h]
    rw [hinner, normalize_eq_arith _ w sgn hw]
    have hmod : (v % 2 ^ w - 2 ^ w) % 2 ^ w = v % 2 ^ w := by
      have hrw : v % 2 ^ w - 2 ^ w = v % 2 ^ w + 2 ^ w * (-1) := by ring
      rw [hrw, Int.add_mul_emod_self_left, Int.emod_eq_of_lt hr0 hrlt]
    rw [hmod, if_pos h]
  · have hinner : Const.normalize v ⟨w, sgn⟩ = v % 2 ^ w := by
      rw [normalize_eq_arith v w sgn hw, if_neg h]
    rw [hinner, normalize_eq_arith _ w sgn hw]
    have hmod : (v % 2 ^ w) % 2 ^ w = v % 2 ^ w := Int.emod_eq_of_lt hr0 hrlt
    rw [hmod, if_neg h]

/-- Witness for C2 at v = 100 and the signed shape of width 3. -/
theorem claim_C2_witness :
    (1:ℕ) ≤ 3 ∧
    Const.normalize (Const.normalize 100 ⟨3, true⟩) ⟨3, true⟩ =
      Const.normalize (100:ℤ) ⟨3, true⟩ :=
  ⟨by decide, claim_C2_normalize_idempotent 100 3 true (by decide)⟩

/-- C3: evaluation of the shape-defaulting `Const` constructor.  The two
examples of the claim hold (`Const(5n)` gives value 5 with shape
width 3 unsigned, `Const(-5n)` gives value -5 with shape width 4 signed),
but the derived shape is not minimal at value -1: the constructor derives
width 2, although -1 already normalizes to itself in the signed shape of
width 1. -/
theorem claim_C3_const_default_shape :
    Const.new 5 none = ⟨5, ⟨3, false⟩⟩ ∧
    Const.new (-5) none = ⟨-5, ⟨4, true⟩⟩ ∧
    (Const.new (-1) none).shape = ⟨2, true⟩ ∧
    Const.normalize (-1) ⟨1, true⟩ = -1 := by
  have h5 : Const.normalize 5 ⟨3, false⟩ = 5 := by
    rw [normalize_eq_arith 5 3 false (by decide)]
    decide
  have hm5 : Const.normalize (-5) ⟨4, true⟩ = -5 := by
    rw [normalize_eq_arith (-5) 4 true (by decide)]
    decide
  have hm1 : Const.normalize (-1) ⟨1, true⟩ = -1 := by
    rw [normalize_eq_arith (-1) 1 true (by decide)]
    decide
  refine ⟨?_, ?_, by decide, hm1⟩
  · show Const.mk (Const.normalize 5 ⟨3, false⟩) ⟨3, false⟩ = _
    rw [h5]
  · show Const.mk (Const.normalize (-5) ⟨4, true⟩) ⟨4, true⟩ = _
    rw [hm5]

/-- C4: evaluation of `bitsFor` at the claimed points.  Four of the five
claimed values hold, but `bitsFor(-1)` returns 2, not the claimed minimal
width 1, because `bitLength(0)` is 1 and hence `log2_int(1, false)` is 1
instead of 0. -/
theorem claim_C4_bitsFor_values :
    bitsFor 0 false = 1 ∧ bitsFor 7 false = 3 ∧ bitsFor 8 false = 4 ∧
    bitsFor (-8) false = 4 ∧ bitsFor (-1) false = 2 := by decide

/-- C5: every `Slice` construction fails, whatever the operand width and
the offsets, because the first assert demands `start ≤ -(n+1)` and
simultaneously `n+1 ≤ start`, which no integer satisfies for a
non-negative width; in particular the in-range slices the claim says must
succeed are rejected. -/
theorem claim_C5_slice_always_fails (n : ℕ) (start stop : ℤ) :
    Slice.new n start stop =
      Except.error ("Cannot start a slice " ++ toString start ++
        " bits into " ++ toString n ++ "-bit value.") := by
  unfold Slice.new
  rw [if_neg]
  intro hc
  have h1 := hc.1
  have h2 := hc.2
  omega

/-- C6: the add-operator shape rule (modelled from the spec, since the
source's `Operator.shape` is an unimplemented stub): the result width is
`max(widthA, widthB) + 1`, the result is signed iff either operand is
signed, and on the operands `Const(3, unsigned(4))` and
`Const(2, unsigned(4))` the result shape is width 5, unsigned. -/
theorem claim_C6_add_shape (a b : Shape) :
    (Operator.addShape a b).width = max a.width b.width + 1 ∧
    ((Operator.addShape a b).signed = true ↔ (a.signed = true ∨ b.signed = true)) ∧
    Operator.addShape (Const.new 3 (some ⟨4, false⟩)).shape
      (Const.new 2 (some ⟨4, false⟩)).shape = ⟨5, false⟩ := by
  refine ⟨rfl, ?_, rfl⟩
  simp [Operator.addShape]

/-- C7: the range with start 0, stop 5, step 2 iterates exactly
[0, 2, 4], yet `Shape.cast` sizes it from `stop - step = 3` and produces
the unsigned shape of width 2, in which the yielded value 4 does not fit
(it normalizes to 0, not itself); the dictionary branch is broken too,
since it computes its maximum with `Math.min` and sizes the value list
[0, 5] from 0 alone, giving width 1 in which the value 5 does not fit. -/
theorem claim_C7_shape_cast_range_not_minimal :
    rangeElems ⟨0, 5, 2⟩ = [0, 2, 4] ∧
    Shape.castRange ⟨0, 5, 2⟩ = Except.ok ⟨2, false⟩ ∧
    Const.normalize 4 ⟨2, false⟩ ≠ 4 ∧
    Shape.castDict 0 [5] = Except.ok ⟨1, false⟩ ∧
    Const.normalize 5 ⟨1, false⟩ ≠ 5 := by
  refine ⟨by decide, by decide, ?_, by decide, ?_⟩
  · rw [normalize_eq_arith 4 2 false (by decide)]
    decide
  · rw [normalize_eq_arith 5 1 false (by decide)]
    decide

/-- C8: the pattern validation of `Value.matches` is inverted: the pattern
"101", made only of characters in the allowed alphabet, fails validation
(its assert condition is false), while the pattern "abc", made of
characters outside the alphabet, passes it - the opposite of the claim. -/
theorem claim_C8_matches_validation_inverted :
    containsInvalidChar "101" = false ∧
    matchesValidationPasses ["101"] = false ∧
    containsInvalidChar "abc" = true ∧
    matchesValidationPasses ["abc"] = true := by decide

/-- C9: evaluation of `log2_int`.  It returns 0 for n = 0 and 3 for
n = 8 with `need_pow2` set, and it correctly rejects the non-power 6, but
it throws the not-a-power-of-two error on n = 1, which is a power of two
and which the claim says must succeed returning 0. -/
theorem claim_C9_log2_int_one_rejected :
    log2_int 0 true = Except.ok 0 ∧ log2_int 0 false = Except.ok 0 ∧
    log2_int 1 true = Except.error "1 is not a power of 2." ∧
    log2_int 8 true = Except.ok 3 ∧
    log2_int 6 true = Except.error "6 is not a power of 2." := by decide

/-- C10: the `Shape` constructor (and the static signed/unsigned
wrappers) validate only `width >= 1`: construction succeeds, storing the
width unchanged, iff 1 ≤ width, and fails iff width < 1, for every
rational width including non-integral ones. -/
theorem claim_C10_shape_width_validation (w : ℚ) (s : Bool) :
    (1 ≤ w → ShapeQ.new w s = Except.ok ⟨w, s⟩) ∧
    (w < 1 → ShapeQ.new w s =
      Except.error "Shape must be non-negative and non-zero.") ∧
    ShapeQ.signedNew w = ShapeQ.new w true ∧
    ShapeQ.unsignedNew w = ShapeQ.new w false := by
  refine ⟨fun h => ?_, fun h => ?_, rfl, rfl⟩
  · rw [ShapeQ.new, if_pos h]
  · rw [ShapeQ.new, if_neg (not_le.mpr h)]

/-- Witness for C10 at the non-integral widths 1.5 and 0.5. -/
theorem claim_C10_witness :
    ShapeQ.new (3/2) false = Except.ok ⟨3/2, false⟩ ∧
    ShapeQ.new (1/2) true =
      Except.error "Shape must be non-negative and non-zero." :=
  ⟨(claim_C10_shape_width_validation (3/2) false).1 (by norm_num),
   (claim_C10_shape_width_validation (1/2) true).2.1 (by norm_num)⟩
